import Mathlib

/-!
Verification of the bitburner-player repository (two Rust sources):
the production pipeline `ffmpeg_to_ascii/src/main.rs` (probe, target
resolution, frame reading, stream encoding) and the playback engine
`src/lib.rs` (stream decoding, frame segmentation, pacing).

The Rust code is shallowly embedded: machine `u32` arithmetic is `Nat`
with explicit `% 2^32` where the source multiplies, fallible paths are
`Option`/`Except`, panics (`unwrap`/`panic!`/`unreachable!`/division by
zero) are distinguished outcomes, and the external world (subprocess
exit statuses, byte-stream read results, the wall clock, the host
display) is passed in explicitly.
-/

namespace BitburnerPlayer

/-! ## Decimal text: the layer behind Rust's `{}` formatting of `u32`
and `str::parse::<u32>` / `split`.  Lines are `String`s; numeric fields
are handled at the `List Char` level via `String.data`. -/

/-- Accumulate the decimal value of a digit list, exactly as Rust's
integer parsing accumulates `acc * 10 + (c - '0')`. -/
def parseNatChars (l : List Char) : Nat :=
  l.foldl (fun n c => n * 10 + (c.toNat - 48)) 0

/-- Model of Rust `str::parse::<u32>` on a character list: succeeds iff
the input is a nonempty all-digit string whose value fits in `u32`.
(Rust additionally accepts a leading `+`, which never occurs in the
streams this repository produces.) -/
def parseU32 (l : List Char) : Option Nat :=
  if l ≠ [] ∧ l.all (fun c => c.isDigit) ∧ parseNatChars l < 2 ^ 32 then
    some (parseNatChars l)
  else
    none

/-- Decimal digit characters of `n`, most significant first: the model
of Rust's `{}` display of an unsigned integer. -/
def natChars (n : Nat) : List Char :=
  if n < 10 then [Nat.digitChar n]
  else natChars (n / 10) ++ [Nat.digitChar (n % 10)]
  termination_by n
  decreasing_by exact Nat.div_lt_self (by omega) (by omega)

/-- Model of Rust `str::split` with a one-character separator (an
iterator over the pieces between separator occurrences; always yields
at least one piece). -/
def splitOnChar (sep : Char) : List Char → List (List Char)
  | [] => [[]]
  | c :: rest =>
    if c = sep then [] :: splitOnChar sep rest
    else
      match splitOnChar sep rest with
      | [] => [[c]]
      | l :: ls => (c :: l) :: ls

/-- Model of Rust `str::trim` (whitespace stripped from both ends). -/
def rustTrim (l : List Char) : List Char :=
  ((l.dropWhile Char.isWhitespace).reverse.dropWhile Char.isWhitespace).reverse

/-! ## MediaProbe: `get_video_dimensions` in `ffmpeg_to_ascii/src/main.rs`.

The function runs `ffprobe` and inspects its exit status and stdout.
Its error handling is uneven: the UTF-8 conversion and the *width*
parse end in `.unwrap()` (the original `?` is commented out in the
source), so those failures panic, while the exit-status check, the
comma-split arity check and the *height* parse return `io::Error`.
The model distinguishes the three outcomes. -/

/-- Outcome of one probe invocation: a parsed pair, a returned
`io::Error` (the spec's `MediaProbeError`), or a panic (crash). -/
inductive ProbeOutcome
  | ok (width height : Nat)
  | err (msg : String)
  | panicked (msg : String)
  deriving DecidableEq

/-- Model of `get_video_dimensions`: `exitSuccess` is the `ffprobe`
exit status, `stdoutUtf8` is `some` of the stdout text when it is valid
UTF-8 and `none` otherwise. -/
def get_video_dimensions (exitSuccess : Bool) (stdoutUtf8 : Option String) :
    ProbeOutcome :=
  if exitSuccess = false then .err "Error executing ffprobe"
  else
    match stdoutUtf8 with
    | none => .panicked "Error converting output to String"
    | some s =>
      match splitOnChar ',' (rustTrim s.data) with
      | [a, b] =>
        match parseU32 a with
        | none => .panicked "Error parsing width"
        | some w =>
          match parseU32 b with
          | none => .err "Error parsing height"
          | some h => .ok w h
      | _ => .err "Invalid file or video channel"

/-! ## TargetResolutionResolver: `new_target_dimensions`. -/

/-- Wrapping `u32` multiplication (the release-build semantics of the
source's `u32` products; all theorems below add no-overflow bounds
under which this is plain multiplication). -/
def u32Mul (a b : Nat) : Nat := a * b % 2 ^ 32

/-- Model of `new_target_dimensions`.  `none` models a panic: the
`(None, None)` arm is `unreachable!()` in the source, and a zero
divisor panics Rust's integer division. -/
def new_target_dimensions (src_width src_height char_width char_height : Nat)
    (dest_width dest_height : Option Nat) : Option (Nat × Nat) :=
  match dest_width, dest_height with
  | some w, some h => some (w, h)
  | some w, none =>
    let d := u32Mul src_width char_width
    if d = 0 then none
    else some (w, u32Mul (u32Mul src_height w) char_height / d)
  | none, some h =>
    let d := u32Mul src_height char_width
    if d = 0 then none
    else some (u32Mul (u32Mul src_width h) char_height / d, h)
  | none, none => none

/-! ## FrameSource: `process_video_stream`.

The production read loop: each `stream.read` result is matched against
the exact frame size `width*height*4` (continue, one frame rendered and
encoded), `0` (clean end of stream, loop exits successfully), anything
else (`io::ErrorKind::UnexpectedEof`, the spec's `TruncatedFrame`).
The stream is modelled by the list of byte counts its successive reads
return; the result counts the frames processed. -/

/-- The per-frame byte budget `(target_width * target_height * 4)`,
with the source's `u32` products. -/
def frame_bytes (target_width target_height : Nat) : Nat :=
  u32Mul (u32Mul target_width target_height) 4

/-- The read loop of `process_video_stream`, over the list of byte
counts returned by successive reads.  Mirrors the source's match order:
the full-frame arm is checked before the `0` arm. -/
def readLoop (fb : Nat) : List Nat → Except String Nat
  | [] => .ok 0
  | r :: rest =>
    if r = fb then
      match readLoop fb rest with
      | .ok n => .ok (n + 1)
      | .error e => .error e
    else if r = 0 then .ok 0
    else .error "unexpected eof"

/-- Model of `process_video_stream`: computes the frame byte budget and
runs the read loop. -/
def process_video_stream (target_width target_height : Nat)
    (reads : List Nat) : Except String Nat :=
  readLoop (frame_bytes target_width target_height) reads

/-! ## `process_video_file`: spawn ffmpeg, consume its stdout, wait.

The source pipes the child's stdout through `handle_output` with a `?`,
so on a consumption error the function returns early and `child.wait()`
is never reached; only when consumption succeeds is the child waited on
and a non-zero exit status turned into the "ffmpeg command failed"
error (the spec's `ProcessFailure`). -/

/-- Result of one `process_video_file` run: the returned value and
whether `child.wait()` was called before returning. -/
def process_video_file (hasStdout : Bool)
    (handleResult : Except String Unit) (exitSuccess : Bool) :
    Except String Unit × Bool :=
  if hasStdout then
    match handleResult with
    | .error e => (.error e, false)
    | .ok _ =>
      if exitSuccess then (.ok (), true)
      else (.error "ffmpeg command failed", true)
  else (.error "cannot produce stdout", false)

/-! ## `get_char_dims` and the `main` input gate.

`main` panics on `--target-width 0`, `--target-height 0`, and on both
target dimensions absent (the spec's `InputValidationError`), before
`get_char_dims` runs and before the first subprocess (the `ffprobe`
dimension query) is spawned. -/

/-- Model of `get_char_dims`: `None` defaults to 1×1; otherwise the
string is split on `x` and both parts parsed as `u32`. -/
def get_char_dims (char_string : Option String) : Except String (Nat × Nat) :=
  match char_string with
  | none => .ok (1, 1)
  | some s =>
    match splitOnChar 'x' s.data with
    | [] => .error "string is empty"
    | [a] =>
      match parseU32 a with
      | none => .error "cannot convert to u32"
      | some _ => .error "string is empty"
    | a :: b :: _ =>
      match parseU32 a with
      | none => .error "cannot convert to u32"
      | some w =>
        match parseU32 b with
        | none => .error "input doesn't have height"
        | some h => .ok (w, h)

/-- How a run of `main` leaves the input gate. -/
inductive MainGateOutcome
  | inputError (msg : String)
  | charDimsError (msg : String)
  | proceeds
  deriving DecidableEq

/-- Model of `main` up to its first subprocess spawn, in source order:
the three validation panics (`InputValidationError`), then the
`get_char_dims` unwrap, then control reaches `get_video_dimensions`,
whose `ffprobe` invocation is the first spawn.  The second component
counts subprocesses spawned up to (and including) that point. -/
def mainGate (target_width target_height : Option Nat)
    (char_dims : Option String) : MainGateOutcome × Nat :=
  if target_width = some 0 then
    (.inputError "target_width cannot be zero", 0)
  else if target_height = some 0 then
    (.inputError "target_height cannot be zero", 0)
  else if target_width = none ∧ target_height = none then
    (.inputError "must set either target_width or target_height", 0)
  else
    match get_char_dims char_dims with
    | .error e => (.charDimsError e, 0)
    | .ok _ => (.proceeds, 1)

/-! ## Wire format.

The producer writes, onto the lz4 encoder: line 1 the frame rate
(`writeln!("{}", framerate)` of an `f64`), line 2 `"{w} {h}"`, then for
every rendered frame its `height` newline-terminated lines verbatim.
The consumer reads the decompressed stream line by line.  Both are
modelled on the sequence of newline-terminated lines of the
(de)compressed stream, a `List String`; lz4 (and the playback side's
base64 layer) are external lossless codecs and drop out of the model.

The frame-rate header is an `f64` on both sides (`Display` out,
`str::parse::<f64>` back, an exact round trip in Rust).  The model
carries the frame-rate line as text and takes the playback side's
`parse::<f64>` as an explicit parameter `parseFR`; a theorem hypothesis
`parseFR frLine = some fr` states that the produced text parses back to
the produced rate. -/

/-- The `"{w} {h}"` dimension header line. -/
def dimsLine (w h : Nat) : String :=
  String.mk (natChars w ++ ' ' :: natChars h)

/-- Model of the producer `main`'s stream output: frame-rate line,
dimension line, then every rendered frame's lines in temporal order
(each rendered frame is its list of text lines). -/
def encodeStream (frLine : String) (w h : Nat)
    (frames : List (List String)) : List String :=
  frLine :: dimsLine w h :: frames.flatten

/-- Model of the playback side's parse of the dimension line:
`split(" ")`, then the first two pieces through `parse::<u32>`; `none`
models the source's `unwrap` panics. -/
def parseDims (s : String) : Option (Nat × Nat) :=
  match splitOnChar ' ' s.data with
  | a :: b :: _ =>
    match parseU32 a, parseU32 b with
    | some x, some y => some (x, y)
    | _, _ => none
  | _ => none

/-- The playback loop's frame segmentation: lines accumulate into a
buffer; once the buffer holds `y` lines it is one complete frame and
resets; a trailing partial buffer is dropped.  (The source keeps a
separate `line_count`, which always equals the number of lines in the
buffer.) -/
def collectFrames (y : Nat) (buffer : List String) :
    List String → List (List String)
  | [] => []
  | l :: rest =>
    let buf := buffer ++ [l]
    if y ≤ buf.length then buf :: collectFrames y [] rest
    else collectFrames y buf rest

/-- Model of the playback decoder (`main_rs` after base64/lz4): header
lines parsed, remaining lines segmented into frames of `y` lines. -/
def decodeStream (parseFR : String → Option ℚ) (lines : List String) :
    Option (ℚ × Nat × Nat × List (List String)) :=
  match lines with
  | l1 :: l2 :: body =>
    match parseFR l1, parseDims l2 with
    | some fr, some (x, y) => some (fr, x, y, collectFrames y [] body)
    | _, _ => none
  | _ => none

/-! ## PlaybackScheduler: the timed display loop of `main_rs`.

Per completed frame the source computes
`next_time = first_print + frame_count as f64 / (framerate / 1000.)`,
sleeps `(next_time - now).round() as u32` milliseconds when an anchor
exists, displays (clearLog, print, resizeTail, tprint), and counts the
frame; the first frame sets the anchor instead of sleeping.  Times are
modelled as exact rationals; the wall clock is a function from frame
index to the `Date.now()` reading taken for that frame (the source
reads the clock exactly once per displayed frame). -/

/-- The target display time `first_print + n / (framerate / 1000)`. -/
def nextTime (anchor : ℚ) (n : Nat) (fr : ℚ) : ℚ :=
  anchor + (n : ℚ) / (fr / 1000)

/-- Rust `f64::round`: round half away from zero. -/
def rustRound (q : ℚ) : ℤ :=
  if 0 ≤ q then ⌊q + 1 / 2⌋ else -⌊-q + 1 / 2⌋

/-- Rust `as u32` on a float: saturating (negatives to 0, large values
to `u32::MAX`). -/
def rustCastU32 (z : ℤ) : Nat :=
  if z < 0 then 0 else min z.toNat (2 ^ 32 - 1)

/-- The argument passed to `ns.sleep`: `(delay.round()) as u32`. -/
def sleepMillis (delay : ℚ) : Nat := rustCastU32 (rustRound delay)

/-- One displayed frame: its index, the milliseconds slept before it
(`none` for the anchor frame, which is displayed immediately), and its
text lines.  Each event bundles the source's display side effects
(`clearLog`, `print`, `resizeTail`, `tprint` of the counter). -/
structure DisplayEvent where
  index : Nat
  slept : Option Nat
  frame : List String
  deriving DecidableEq

/-- Mutable state of the playback loop: the anchor (`first_print`), the
frame counter, and the line buffer. -/
structure PlayState where
  firstPrint : Option ℚ
  frameCount : Nat
  buffer : List String
  deriving DecidableEq

/-- The playback loop of `main_rs` over the decoded post-header lines.
Line-read results are `Except Unit String`: an `Err` line aborts the
loop (`tprint` the error and return), which the second component
records as an unclean (`false`) termination; exhausting the lines is
clean (`true`). -/
def runPlay (fr : ℚ) (y : Nat) (clock : Nat → ℚ) :
    List (Except Unit String) → PlayState → List DisplayEvent × Bool
  | [], _ => ([], true)
  | .error _ :: _, _ => ([], false)
  | .ok l :: rest, s =>
    let buf := s.buffer ++ [l]
    if y ≤ buf.length then
      match s.firstPrint with
      | some a =>
        let now := clock s.frameCount
        let ev : DisplayEvent :=
          ⟨s.frameCount, some (sleepMillis (nextTime a s.frameCount fr - now)), buf⟩
        let out := runPlay fr y clock rest ⟨some a, s.frameCount + 1, []⟩
        (ev :: out.1, out.2)
      | none =>
        let now := clock s.frameCount
        let ev : DisplayEvent := ⟨s.frameCount, none, buf⟩
        let out := runPlay fr y clock rest ⟨some now, s.frameCount + 1, []⟩
        (ev :: out.1, out.2)
    else
      runPlay fr y clock rest ⟨s.firstPrint, s.frameCount, buf⟩

/-- Model of the playback entry point `main_rs`: an empty file returns
at once; otherwise the base64/lz4-decoded line stream (`decoded`) is
consumed — two header lines (frame rate through `parseFR`, dimensions
through `parseDims`; a missing/unreadable/unparsable header is an
`unwrap` panic, recorded as unclean termination with no display), then
the timed display loop. -/
def main_rs (fileContents : String) (decoded : List (Except Unit String))
    (parseFR : String → Option ℚ) (clock : Nat → ℚ) :
    List DisplayEvent × Bool :=
  if fileContents.isEmpty then ([], true)
  else
    match decoded with
    | .ok l1 :: .ok l2 :: body =>
      match parseFR l1, parseDims l2 with
      | some fr, some (_, y) => runPlay fr y clock body ⟨none, 0, []⟩
      | _, _ => ([], false)
    | _ => ([], false)

/-! ## Characterization of the playback loop. -/

/-- Closed form of the display events `runPlay` produces from a list of
complete frames, starting in anchor state `fp` with frame counter `k`:
an unanchored run displays its first frame immediately and anchors at
that frame's clock reading; an anchored run sleeps
`sleepMillis (nextTime anchor k fr - clock k)` before frame `k`. -/
def eventsFrom (fr : ℚ) (clock : Nat → ℚ) :
    Option ℚ → Nat → List (List String) → List DisplayEvent
  | _, _, [] => []
  | none, k, b :: bs =>
    ⟨k, none, b⟩ :: eventsFrom fr clock (some (clock k)) (k + 1) bs
  | some a, k, b :: bs =>
    ⟨k, some (sleepMillis (nextTime a k fr - clock k)), b⟩ ::
      eventsFrom fr clock (some a) (k + 1) bs

/-- A clock for the concrete pacing runs: frame 0 is displayed at time
0, every later reading is 1/4 ms. -/
def clockCe : Nat → ℚ := fun n => if n = 0 then 0 else 1 / 4

theorem natChars_ne_nil (n : Nat) : natChars n ≠ [] := by
  unfold natChars
  split <;> simp

theorem digitChar_isDigit (d : Nat) (hd : d < 10) :
    (Nat.digitChar d).isDigit = true := by
  interval_cases d <;> decide

theorem digitChar_toNat (d : Nat) (hd : d < 10) :
    (Nat.digitChar d).toNat - 48 = d := by
  interval_cases d <;> decide

theorem natChars_all_digit (n : Nat) :
    (natChars n).all (fun c => c.isDigit) = true := by
  induction n using Nat.strong_induction_on with
  | _ n ih =>
    unfold natChars
    split
    · next h => simp [digitChar_isDigit n h]
    · next h =>
      rw [List.all_append]
      have h1 := ih (n / 10) (Nat.div_lt_self (by omega) (by omega))
      have h2 := digitChar_isDigit (n % 10) (Nat.mod_lt _ (by omega))
      simp_all

theorem parseNatChars_natChars (n : Nat) : parseNatChars (natChars n) = n := by
  induction n using Nat.strong_induction_on with
  | _ n ih =>
    unfold natChars
    split
    · next h =>
      simp [parseNatChars, digitChar_toNat n h]
    · next h =>
      have h1 := ih (n / 10) (Nat.div_lt_self (by omega) (by omega))
      rw [parseNatChars, List.foldl_append]
      rw [parseNatChars] at h1
      simp only [h1, List.foldl]
      rw [digitChar_toNat (n % 10) (Nat.mod_lt _ (by omega))]
      omega

theorem parseU32_natChars (n : Nat) (h : n < 2 ^ 32) :
    parseU32 (natChars n) = some n := by
  simp only [parseU32, parseNatChars_natChars]
  rw [if_pos ⟨natChars_ne_nil n, by simpa using natChars_all_digit n, h⟩]

theorem natChars_not_mem (n : Nat) (c : Char) (hc : c.isDigit = false) :
    c ∉ natChars n := by
  intro hmem
  have := natChars_all_digit n
  rw [List.all_eq_true] at this
  have := this c hmem
  simp [hc] at this

theorem splitOnChar_not_mem (sep : Char) (l : List Char) (h : sep ∉ l) :
    splitOnChar sep l = [l] := by
  induction l with
  | nil => rfl
  | cons c rest ih =>
    simp only [List.mem_cons, not_or] at h
    rw [splitOnChar, if_neg (fun hc => h.1 hc.symm), ih h.2]

theorem splitOnChar_append (sep : Char) (a b : List Char) (h : sep ∉ a) :
    splitOnChar sep (a ++ sep :: b) = a :: splitOnChar sep b := by
  induction a with
  | nil => simp [splitOnChar]
  | cons c rest ih =>
    simp only [List.mem_cons, not_or] at h
    rw [List.cons_append, splitOnChar, if_neg (fun hc => h.1 hc.symm),
      ih h.2]

theorem u32Mul_eq (a b : Nat) (h : a * b < 2 ^ 32) : u32Mul a b = a * b :=
  Nat.mod_eq_of_lt h

theorem collectFrames_cons_eq (y : Nat) (buffer : List String) (l : String)
    (rest : List String) :
    collectFrames y buffer (l :: rest) =
      if y ≤ (buffer ++ [l]).length then
        (buffer ++ [l]) :: collectFrames y [] rest
      else collectFrames y (buffer ++ [l]) rest := rfl

theorem runPlay_cons_some (fr : ℚ) (y : Nat) (clock : Nat → ℚ) (l : String)
    (rest : List (Except Unit String)) (a : ℚ) (k : Nat)
    (buf : List String) :
    runPlay fr y clock (Except.ok l :: rest) ⟨some a, k, buf⟩ =
      if y ≤ (buf ++ [l]).length then
        (⟨k, some (sleepMillis (nextTime a k fr - clock k)), buf ++ [l]⟩ ::
          (runPlay fr y clock rest ⟨some a, k + 1, []⟩).1,
          (runPlay fr y clock rest ⟨some a, k + 1, []⟩).2)
      else runPlay fr y clock rest ⟨some a, k, buf ++ [l]⟩ := rfl

theorem runPlay_cons_none (fr : ℚ) (y : Nat) (clock : Nat → ℚ) (l : String)
    (rest : List (Except Unit String)) (k : Nat) (buf : List String) :
    runPlay fr y clock (Except.ok l :: rest) ⟨none, k, buf⟩ =
      if y ≤ (buf ++ [l]).length then
        (⟨k, none, buf ++ [l]⟩ ::
          (runPlay fr y clock rest ⟨some (clock k), k + 1, []⟩).1,
          (runPlay fr y clock rest ⟨some (clock k), k + 1, []⟩).2)
      else runPlay fr y clock rest ⟨none, k, buf ++ [l]⟩ := rfl

theorem runPlay_short (fr : ℚ) (y : Nat) (clock : Nat → ℚ) :
    ∀ (rem buf : List String) (fp : Option ℚ) (k : Nat),
      buf.length + rem.length < y →
      runPlay fr y clock (rem.map Except.ok) ⟨fp, k, buf⟩ = ([], true) := by
  intro rem
  induction rem with
  | nil => intro buf fp k _; rfl
  | cons l rest ih =>
    intro buf fp k h
    simp only [List.length_cons] at h
    have hc : ¬y ≤ (buf ++ [l]).length := by
      simp only [List.length_append, List.length_cons, List.length_nil]
      omega
    rw [List.map_cons]
    cases fp with
    | some a =>
      rw [runPlay_cons_some, if_neg hc]
      exact ih (buf ++ [l]) (some a) k
        (by simp only [List.length_append, List.length_cons, List.length_nil]
            omega)
    | none =>
      rw [runPlay_cons_none, if_neg hc]
      exact ih (buf ++ [l]) none k
        (by simp only [List.length_append, List.length_cons, List.length_nil]
            omega)

theorem runPlay_block_some (fr : ℚ) (y : Nat) (clock : Nat → ℚ)
    (rest : List (Except Unit String)) :
    ∀ (b buf : List String) (a : ℚ) (k : Nat), b ≠ [] →
      buf.length + b.length = y →
      runPlay fr y clock (b.map Except.ok ++ rest) ⟨some a, k, buf⟩ =
        (⟨k, some (sleepMillis (nextTime a k fr - clock k)), buf ++ b⟩ ::
          (runPlay fr y clock rest ⟨some a, k + 1, []⟩).1,
          (runPlay fr y clock rest ⟨some a, k + 1, []⟩).2) := by
  intro b
  induction b with
  | nil => intro buf a k hne _; exact absurd rfl hne
  | cons c btail ih =>
    intro buf a k _ hlen
    simp only [List.length_cons] at hlen
    rw [List.map_cons, List.cons_append, runPlay_cons_some]
    cases btail with
    | nil =>
      rw [if_pos (by
        simp only [List.length_append, List.length_cons, List.length_nil] at *
        omega)]
      simp
    | cons d btail2 =>
      rw [if_neg (by
        simp only [List.length_append, List.length_cons, List.length_nil] at *
        omega)]
      rw [ih (buf ++ [c]) a k (by simp)
        (by simp only [List.length_append, List.length_cons,
              List.length_nil] at *
            omega)]
      simp

theorem runPlay_block_none (fr : ℚ) (y : Nat) (clock : Nat → ℚ)
    (rest : List (Except Unit String)) :
    ∀ (b buf : List String) (k : Nat), b ≠ [] →
      buf.length + b.length = y →
      runPlay fr y clock (b.map Except.ok ++ rest) ⟨none, k, buf⟩ =
        (⟨k, none, buf ++ b⟩ ::
          (runPlay fr y clock rest ⟨some (clock k), k + 1, []⟩).1,
          (runPlay fr y clock rest ⟨some (clock k), k + 1, []⟩).2) := by
  intro b
  induction b with
  | nil => intro buf k hne _; exact absurd rfl hne
  | cons c btail ih =>
    intro buf k _ hlen
    simp only [List.length_cons] at hlen
    rw [List.map_cons, List.cons_append, runPlay_cons_none]
    cases btail with
    | nil =>
      rw [if_pos (by
        simp only [List.length_append, List.length_cons, List.length_nil] at *
        omega)]
      simp
    | cons d btail2 =>
      rw [if_neg (by
        simp only [List.length_append, List.length_cons, List.length_nil] at *
        omega)]
      rw [ih (buf ++ [c]) k (by simp)
        (by simp only [List.length_append, List.length_cons,
              List.length_nil] at *
            omega)]
      simp

theorem runPlay_flatten (fr : ℚ) (y : Nat) (clock : Nat → ℚ) (hy : 0 < y) :
    ∀ (blocks : List (List String)) (leftover : List String)
      (fp : Option ℚ) (k : Nat),
      (∀ b ∈ blocks, b.length = y) → leftover.length < y →
      runPlay fr y clock ((blocks.flatten ++ leftover).map Except.ok)
          ⟨fp, k, []⟩ =
        (eventsFrom fr clock fp k blocks, true) := by
  intro blocks
  induction blocks with
  | nil =>
    intro leftover fp k _ hl
    rw [List.flatten_nil, List.nil_append,
      runPlay_short fr y clock leftover [] fp k (by simpa using hl)]
    cases fp <;> rfl
  | cons b bs ih =>
    intro leftover fp k hb hl
    have hby : b.length = y := hb b (List.mem_cons_self b bs)
    have hbne : b ≠ [] := by
      intro hnil; rw [hnil] at hby; simp at hby; omega
    have hrec := fun (a : ℚ) => ih leftover (some a) (k + 1)
      (fun x hx => hb x (List.mem_cons_of_mem b hx)) hl
    rw [List.flatten_cons, List.append_assoc, List.map_append]
    cases fp with
    | none =>
      rw [runPlay_block_none fr y clock _ b [] k hbne (by simpa using hby),
        hrec (clock k)]
      rfl
    | some a =>
      rw [runPlay_block_some fr y clock _ b [] a k hbne (by simpa using hby),
        hrec a]
      rfl

theorem eventsFrom_frames (fr : ℚ) (clock : Nat → ℚ) :
    ∀ (bs : List (List String)) (fp : Option ℚ) (k : Nat),
      (eventsFrom fr clock fp k bs).map DisplayEvent.frame = bs := by
  intro bs
  induction bs with
  | nil => intro fp k; cases fp <;> rfl
  | cons b bstail ih =>
    intro fp k
    cases fp <;> simp [eventsFrom, ih]

theorem eventsFrom_get (fr : ℚ) (clock : Nat → ℚ) :
    ∀ (bs : List (List String)) (a : ℚ) (k n : Nat),
      (eventsFrom fr clock (some a) k bs)[n]? =
        (bs[n]?).map (fun b =>
          ⟨k + n, some (sleepMillis (nextTime a (k + n) fr - clock (k + n))),
            b⟩) := by
  intro bs
  induction bs with
  | nil => intro a k n; rfl
  | cons b bstail ih =>
    intro a k n
    cases n with
    | zero => simp [eventsFrom]
    | succ m =>
      have hkm : k + 1 + m = k + (m + 1) := by omega
      simp only [eventsFrom, List.getElem?_cons_succ, ih a (k + 1) m, hkm]

/-- The frames the timed loop displays are exactly the segmentation the
pure chunker `collectFrames` computes: the timing logic never adds,
drops or reorders a frame. -/
theorem runPlay_frames_eq_collectFrames (fr : ℚ) (y : Nat)
    (clock : Nat → ℚ) :
    ∀ (lines buf : List String) (fp : Option ℚ) (k : Nat),
      ((runPlay fr y clock (lines.map Except.ok) ⟨fp, k, buf⟩).1).map
          DisplayEvent.frame =
        collectFrames y buf lines := by
  intro lines
  induction lines with
  | nil => intro buf fp k; cases fp <;> rfl
  | cons l rest ih =>
    intro buf fp k
    rw [List.map_cons, collectFrames_cons_eq]
    by_cases hc : y ≤ (buf ++ [l]).length
    · cases fp with
      | some a =>
        rw [runPlay_cons_some, if_pos hc, if_pos hc]
        simp [ih [] (some a) (k + 1)]
      | none =>
        rw [runPlay_cons_none, if_pos hc, if_pos hc]
        simp [ih [] (some (clock k)) (k + 1)]
    · cases fp with
      | some a =>
        rw [runPlay_cons_some, if_neg hc, if_neg hc]
        exact ih (buf ++ [l]) (some a) k
      | none =>
        rw [runPlay_cons_none, if_neg hc, if_neg hc]
        exact ih (buf ++ [l]) none k

theorem collectFrames_short (y : Nat) :
    ∀ (rem buffer : List String), buffer.length + rem.length < y →
      collectFrames y buffer rem = [] := by
  intro rem
  induction rem with
  | nil => intro buffer _; rfl
  | cons l rest ih =>
    intro buffer h
    simp only [List.length_cons] at h
    rw [collectFrames_cons_eq, if_neg (by
      simp only [List.length_append, List.length_cons, List.length_nil]
      omega)]
    exact ih (buffer ++ [l])
      (by simp only [List.length_append, List.length_cons, List.length_nil]
          omega)

theorem collectFrames_block (y : Nat) (rest : List String) :
    ∀ (b buffer : List String), b ≠ [] → buffer.length + b.length = y →
      collectFrames y buffer (b ++ rest) =
        (buffer ++ b) :: collectFrames y [] rest := by
  intro b
  induction b with
  | nil => intro buffer hne _; exact absurd rfl hne
  | cons c btail ih =>
    intro buffer _ hlen
    simp only [List.length_cons] at hlen
    rw [List.cons_append, collectFrames_cons_eq]
    cases btail with
    | nil =>
      rw [if_pos (by
        simp only [List.length_append, List.length_cons, List.length_nil] at *
        omega)]
      simp
    | cons d btail2 =>
      rw [if_neg (by
        simp only [List.length_append, List.length_cons, List.length_nil] at *
        omega)]
      rw [ih (buffer ++ [c]) (by simp)
        (by simp only [List.length_append, List.length_cons,
              List.length_nil] at *
            omega)]
      simp

theorem collectFrames_flatten (y : Nat) (hy : 0 < y) :
    ∀ (blocks : List (List String)) (leftover : List String),
      (∀ b ∈ blocks, b.length = y) → leftover.length < y →
      collectFrames y [] (blocks.flatten ++ leftover) = blocks := by
  intro blocks
  induction blocks with
  | nil =>
    intro leftover _ hl
    rw [List.flatten_nil, List.nil_append]
    exact collectFrames_short y leftover [] (by simpa using hl)
  | cons b bs ih =>
    intro leftover hb hl
    have hby : b.length = y := hb b (List.mem_cons_self b bs)
    rw [List.flatten_cons, List.append_assoc,
      collectFrames_block y (bs.flatten ++ leftover) b []
        (by intro hnil; rw [hnil] at hby; simp at hby; omega)
        (by simpa using hby),
      ih leftover (fun x hx => hb x (List.mem_cons_of_mem b hx)) hl]
    simp

theorem parseDims_dimsLine (w h : Nat) (hw : w < 2 ^ 32) (hh : h < 2 ^ 32) :
    parseDims (dimsLine w h) = some (w, h) := by
  have hsplit : splitOnChar ' ' (dimsLine w h).data =
      [natChars w, natChars h] := by
    rw [show (dimsLine w h).data = natChars w ++ ' ' :: natChars h from rfl,
      splitOnChar_append ' ' (natChars w) (natChars h)
        (natChars_not_mem w ' ' (by decide)),
      splitOnChar_not_mem ' ' (natChars h)
        (natChars_not_mem h ' ' (by decide))]
  simp only [parseDims, hsplit, parseU32_natChars w hw, parseU32_natChars h hh]

/-- The target-time arithmetic `anchor + n / (fr / 1000)` of the source
equals the spec's `anchor + n × 1000/fr` (exact rational arithmetic). -/
theorem nextTime_eq (a : ℚ) (j : Nat) (fr : ℚ) :
    nextTime a j fr = a + (j : ℚ) * (1000 / fr) := by
  rw [nextTime, div_div_eq_mul_div, mul_div_assoc]

/-! ## The claims. -/

/-- C1: encoding N rendered frames of exactly `height` lines each
(header line 1 the frame-rate text, header line 2 `"<width> <height>"`,
then all frame lines verbatim in order) and decoding the stream with
the playback decoder reproduces the frame rate (the header text parses
back to it), the width and height, and the same N frames with
identical text in the same order. -/
theorem c1_wire_roundtrip (parseFR : String → Option ℚ) (frLine : String)
    (fr : ℚ) (w h : Nat) (frames : List (List String))
    (hfr : parseFR frLine = some fr) (hw : w < 2 ^ 32) (hh : h < 2 ^ 32)
    (hy : 0 < h) (hframes : ∀ f ∈ frames, f.length = h) :
    decodeStream parseFR (encodeStream frLine w h frames) =
      some (fr, w, h, frames) := by
  have hcollect := collectFrames_flatten h hy frames [] hframes
    (by simpa using hy)
  rw [List.append_nil] at hcollect
  simp only [decodeStream, encodeStream, hfr, parseDims_dimsLine w h hw hh,
    hcollect]

theorem c1_wire_roundtrip_witness :
    decodeStream (fun s => if s = "30" then some (30 : ℚ) else none)
        (encodeStream "30" 2 2 [["ab", "cd"], ["ef", "gh"]]) =
      some (30, 2, 2, [["ab", "cd"], ["ef", "gh"]]) :=
  c1_wire_roundtrip _ "30" 30 2 2 [["ab", "cd"], ["ef", "gh"]]
    (by simp) (by decide) (by decide) (by decide) (by decide)

/-- C2, as claimed, is false: the wait performed before a late-or-early
frame is the *rounded* delay (`(next_time - now).round() as u32`), not
`max(target − now, 0)` itself.  Concrete run: frameRate 1000, height 1,
frame 0 displayed at t = 0, clock reading 1/4 ms at frame 1: the target
is 1 ms, the claimed wait is `max(3/4, 0) = 3/4` ms, but the loop
sleeps exactly 1 ms. -/
theorem c2_counterexample :
    (runPlay 1000 1 clockCe [Except.ok "a", Except.ok "b"]
        ⟨none, 0, []⟩).1 =
      [⟨0, none, ["a"]⟩, ⟨1, some 1, ["b"]⟩] ∧
      ((1 : ℚ) ≠ max (clockCe 0 + (1 : ℚ) * (1000 / 1000) - clockCe 1) 0) := by
  have h0 : clockCe 0 = 0 := rfl
  have h1 : clockCe 1 = 1 / 4 := rfl
  have hδ : nextTime 0 1 1000 - clockCe 1 = 3 / 4 := by
    rw [h1, nextTime]
    norm_num
  have hs : sleepMillis (nextTime 0 1 1000 - clockCe 1) = 1 := by
    have hfl : ⌊(3 / 4 : ℚ) + 1 / 2⌋ = 1 := by norm_num
    rw [hδ, sleepMillis, rustRound, if_pos (by norm_num), hfl, rustCastU32,
      if_neg (by norm_num)]
    norm_num
  constructor
  · norm_num [runPlay_cons_none, runPlay_cons_some, runPlay, h0, hs,
      List.length_append, List.length_cons, List.length_nil]
  · rw [h0, h1]
    norm_num

/-- C2 (amended): for every frame at index n ≥ 1 the target display
time is anchor + n × 1000/frameRate ms (anchor = the clock reading at
frame 0's display), and the wait performed is the *round-to-nearest*
integer of (target − now), clamped below at 0 and above at the u32
maximum; a frame whose target is already past is still displayed — the
run displays every complete frame (no drop/skip). -/
theorem c2_amended_schedule (fr : ℚ) (y : Nat) (clock : Nat → ℚ)
    (blocks : List (List String)) (leftover : List String) (n : Nat)
    (hy : 0 < y) (hfr : fr ≠ 0) (hb : ∀ b ∈ blocks, b.length = y)
    (hl : leftover.length < y) (hn : 1 ≤ n) :
    ((runPlay fr y clock ((blocks.flatten ++ leftover).map Except.ok)
          ⟨none, 0, []⟩).1)[n]? =
        (blocks[n]?).map (fun b =>
          (⟨n, some (rustCastU32 (rustRound
            (clock 0 + (n : ℚ) * (1000 / fr) - clock n))), b⟩ :
            DisplayEvent)) ∧
      ((runPlay fr y clock ((blocks.flatten ++ leftover).map Except.ok)
          ⟨none, 0, []⟩).1).length = blocks.length := by
  rw [runPlay_flatten fr y clock hy blocks leftover none 0 hb hl]
  constructor
  · cases blocks with
    | nil => simp [eventsFrom]
    | cons b0 bs =>
      obtain ⟨m, rfl⟩ : ∃ m, n = m + 1 := ⟨n - 1, by omega⟩
      simp only [eventsFrom, List.getElem?_cons_succ]
      rw [eventsFrom_get fr clock bs (clock 0) 1 m]
      have h1m : 1 + m = m + 1 := by omega
      simp only [h1m, sleepMillis, nextTime_eq]
  · have := congrArg List.length (eventsFrom_frames fr clock blocks none 0)
    simpa using this

theorem c2_amended_schedule_witness :
    ((runPlay 1000 1 clockCe
          (([["a"], ["b"]].flatten ++ []).map Except.ok) ⟨none, 0, []⟩).1)[1]? =
        (([["a"], ["b"]] : List (List String))[1]?).map (fun b =>
          (⟨1, some (rustCastU32 (rustRound
            (clockCe 0 + ((1 : Nat) : ℚ) * (1000 / 1000) - clockCe 1))), b⟩ :
            DisplayEvent)) ∧
      ((runPlay 1000 1 clockCe
          (([["a"], ["b"]].flatten ++ []).map Except.ok) ⟨none, 0, []⟩).1).length =
        ([["a"], ["b"]] : List (List String)).length :=
  c2_amended_schedule 1000 1 clockCe [["a"], ["b"]] [] 1
    (by decide) (by norm_num) (by decide) (by decide) (by decide)

/-- C3, as claimed, is false: for a source of 100×100, character cell
1×2 and targetHeight 10, the claimed symmetric formula gives width
100×10×1 ÷ (100×2) = 5, but the code computes
`src_width * h * char_height / (src_height * char_width)` = 20. -/
theorem c3_counterexample :
    new_target_dimensions 100 100 1 2 none (some 10) = some (20, 10) ∧
      (20 : Nat) ≠ 100 * 10 * 1 / (100 * 2) := by
  decide

/-- C3 (amended): when only targetHeight is supplied the resolved width
is srcWidth × targetHeight × charHeight ÷ (srcHeight × charWidth) with
integer truncation — the same charHeight/charWidth orientation as the
width-only case, not its mirror — and the resolved height is
targetHeight verbatim. -/
theorem c3_amended_width_formula (sw sh cw ch h : Nat)
    (hsh : 0 < sh) (hcw : 0 < cw) (h1 : sw * h < 2 ^ 32)
    (h2 : sw * h * ch < 2 ^ 32) (h3 : sh * cw < 2 ^ 32) :
    new_target_dimensions sw sh cw ch none (some h) =
      some (sw * h * ch / (sh * cw), h) := by
  have hpos : 0 < sh * cw := Nat.mul_pos hsh hcw
  simp only [new_target_dimensions, u32Mul_eq sh cw h3, u32Mul_eq sw h h1,
    u32Mul_eq (sw * h) ch h2]
  rw [if_neg (by omega)]

theorem c3_amended_width_formula_witness :
    new_target_dimensions 200 50 2 3 none (some 7) = some (42, 7) := by
  have h := c3_amended_width_formula 200 50 2 3 7
    (by decide) (by decide) (by decide) (by decide) (by decide)
  rw [h]

/-- C4: during production every logical frame read must return exactly
width×height×4 bytes (the frame is processed and the loop continues),
or 0 bytes (clean end of stream, the loop terminates successfully);
any other byte count fails the pipeline with the truncated-frame error
instead of retrying or continuing. -/
theorem c4_read_contract (w h r : Nat) (rest : List Nat)
    (hw : 0 < w) (hh : 0 < h) (hb : w * h * 4 < 2 ^ 32) :
    process_video_stream w h (w * h * 4 :: rest) =
        (process_video_stream w h rest).map (· + 1) ∧
      process_video_stream w h (0 :: rest) = Except.ok 0 ∧
      (r ≠ w * h * 4 → r ≠ 0 →
        process_video_stream w h (r :: rest) =
          Except.error "unexpected eof") := by
  have hwh : w * h < 2 ^ 32 := by
    have : w * h ≤ w * h * 4 := by
      calc w * h = w * h * 1 := (Nat.mul_one _).symm
      _ ≤ w * h * 4 := Nat.mul_le_mul_left _ (by omega)
    omega
  have hfb : frame_bytes w h = w * h * 4 := by
    rw [frame_bytes, u32Mul_eq w h hwh, u32Mul_eq (w * h) 4 hb]
  have hpos : 0 < w * h * 4 := Nat.mul_pos (Nat.mul_pos hw hh) (by omega)
  refine ⟨?_, ?_, ?_⟩
  · show readLoop (frame_bytes w h) _ = (readLoop (frame_bytes w h) _).map _
    rw [hfb]
    show (if w * h * 4 = w * h * 4 then _ else _) = _
    rw [if_pos rfl]
    cases hrl : readLoop (w * h * 4) rest <;> simp [hrl, Except.map]
  · show readLoop (frame_bytes w h) _ = _
    rw [hfb]
    show (if 0 = w * h * 4 then _ else if 0 = 0 then _ else _) = _
    rw [if_neg (by omega), if_pos rfl]
  · intro hr1 hr2
    show readLoop (frame_bytes w h) _ = _
    rw [hfb]
    show (if r = w * h * 4 then _ else if r = 0 then _ else _) = _
    rw [if_neg hr1, if_neg hr2]

theorem c4_read_contract_witness :
    process_video_stream 1 1 [4] = (process_video_stream 1 1 []).map (· + 1) ∧
      process_video_stream 1 1 [0] = Except.ok 0 ∧
      process_video_stream 1 1 [2] = Except.error "unexpected eof" := by
  have h := c4_read_contract 1 1 2 [] (by decide) (by decide) (by decide)
  exact ⟨by simpa using h.1, by simpa using h.2.1,
    by simpa using h.2.2 (by decide) (by decide)⟩

/-- C6, as claimed, is false on early error paths: when the stdout
consumption callback fails (for example with the truncated-frame
error), `process_video_file` returns that error through `?` without
ever calling `child.wait()` — the second component `false` records that
the wait was skipped, so the exit status of the transcoder is lost and
the returned error is not the process-failure error. -/
theorem c6_counterexample :
    process_video_file true (Except.error "unexpected eof") false =
        (Except.error "unexpected eof", false) ∧
      ("unexpected eof" : String) ≠ "ffmpeg command failed" :=
  ⟨rfl, by decide⟩

/-- C6 (amended): when the transcoder's output is fully consumed (the
consumption callback succeeds), the child process is waited on and a
non-zero exit status is surfaced as the process-failure error even
though consumption succeeded; when consumption fails, the function
returns early with the consumption error and never waits, losing the
exit status on that path. -/
theorem c6_amended_wait_after_consumption (exitSuccess : Bool) :
    (process_video_file true (Except.ok ()) exitSuccess).2 = true ∧
      (exitSuccess = false →
        (process_video_file true (Except.ok ()) exitSuccess).1 =
          Except.error "ffmpeg command failed") ∧
      (exitSuccess = true →
        (process_video_file true (Except.ok ()) exitSuccess).1 =
          Except.ok ()) := by
  cases exitSuccess <;> simp [process_video_file]

theorem c6_amended_wait_after_consumption_witness :
    (process_video_file true (Except.ok ()) false).2 = true ∧
      (process_video_file true (Except.ok ()) false).1 =
        Except.error "ffmpeg command failed" :=
  ⟨(c6_amended_wait_after_consumption false).1,
    (c6_amended_wait_after_consumption false).2.1 rfl⟩

/-- C7: a trailing partial buffer of fewer than `height` lines at
stream end is discarded without display and without error: for a
post-header line stream made of complete blocks of `height` lines plus
a leftover shorter than `height`, playback displays exactly the
complete blocks (the leftover lines go undisplayed) and terminates
cleanly as success. -/
theorem c7_trailing_partial_discarded (fr : ℚ) (y : Nat) (clock : Nat → ℚ)
    (blocks : List (List String)) (leftover : List String)
    (hy : 0 < y) (hb : ∀ b ∈ blocks, b.length = y)
    (hl : leftover.length < y) :
    (runPlay fr y clock ((blocks.flatten ++ leftover).map Except.ok)
        ⟨none, 0, []⟩).2 = true ∧
      ((runPlay fr y clock ((blocks.flatten ++ leftover).map Except.ok)
          ⟨none, 0, []⟩).1).map DisplayEvent.frame = blocks := by
  rw [runPlay_flatten fr y clock hy blocks leftover none 0 hb hl]
  exact ⟨rfl, eventsFrom_frames fr clock blocks none 0⟩

theorem c7_trailing_partial_discarded_witness :
    (runPlay 1 2 (fun _ => 0)
        (([["a", "b"]].flatten ++ ["c"]).map Except.ok) ⟨none, 0, []⟩).2 =
        true ∧
      ((runPlay 1 2 (fun _ => 0)
          (([["a", "b"]].flatten ++ ["c"]).map Except.ok) ⟨none, 0, []⟩).1).map
          DisplayEvent.frame = [["a", "b"]] :=
  c7_trailing_partial_discarded 1 2 (fun _ => 0) [["a", "b"]] ["c"]
    (by decide) (by decide) (by decide)

/-- C8 names a code bug: for a successful probe whose stdout is
`"abc,def"` the claim (and the spec) require a returned probe error and
no crash, but the source's width parse ends in `.unwrap()` (its `?` is
commented out), so the code panics. -/
theorem c8_probe_panics_on_abc_def :
    get_video_dimensions true (some "abc,def") =
      ProbeOutcome.panicked "Error parsing width" := by
  decide

/-- C9: a request with neither target dimension, or with a zero value
for either supplied dimension, is rejected as an input-validation
error before any external process is spawned: the spawn count is 0 on
every such run. -/
theorem c9_validation_before_spawn (tw th : Option Nat) (cd : Option String)
    (h : tw = some 0 ∨ th = some 0 ∨ (tw = none ∧ th = none)) :
    (mainGate tw th cd).2 = 0 ∧
      ∃ msg, (mainGate tw th cd).1 = MainGateOutcome.inputError msg := by
  unfold mainGate
  rcases h with h | h | ⟨h1, h2⟩
  · rw [if_pos h]
    exact ⟨rfl, _, rfl⟩
  · by_cases htw : tw = some 0
    · rw [if_pos htw]
      exact ⟨rfl, _, rfl⟩
    · rw [if_neg htw, if_pos h]
      exact ⟨rfl, _, rfl⟩
  · by_cases htw : tw = some 0
    · rw [if_pos htw]
      exact ⟨rfl, _, rfl⟩
    · rw [if_neg htw]
      by_cases hth : th = some 0
      · rw [if_pos hth]
        exact ⟨rfl, _, rfl⟩
      · rw [if_neg hth, if_pos ⟨h1, h2⟩]
        exact ⟨rfl, _, rfl⟩

theorem c9_validation_before_spawn_witness :
    (mainGate (some 0) none none).2 = 0 ∧
      ∃ msg, (mainGate (some 0) none none).1 =
        MainGateOutcome.inputError msg :=
  c9_validation_before_spawn (some 0) none none (Or.inl rfl)

/-- C10: when the playback input file's contents are empty, `main_rs`
returns immediately and cleanly — no decoding is attempted, no display
event (clear/print/resize bundle) is emitted, and the run terminates
as success. -/
theorem c10_empty_file_clean_return (contents : String)
    (decoded : List (Except Unit String)) (parseFR : String → Option ℚ)
    (clock : Nat → ℚ) (h : contents.isEmpty = true) :
    main_rs contents decoded parseFR clock = ([], true) := by
  unfold main_rs
  rw [if_pos h]

theorem c10_empty_file_clean_return_witness :
    main_rs "" [] (fun _ => none) (fun _ => 0) = ([], true) :=
  c10_empty_file_clean_return "" [] (fun _ => none) (fun _ => 0) rfl

/-- C5: when only targetWidth is supplied the resolved height is
srcHeight × targetWidth × charHeight ÷ (srcWidth × charWidth) with
integer truncation, and the resolved width is the supplied width. -/
theorem c5_height_from_width (sw sh cw ch w : Nat)
    (hsw : 0 < sw) (hcw : 0 < cw) (h1 : sh * w < 2 ^ 32)
    (h2 : sh * w * ch < 2 ^ 32) (h3 : sw * cw < 2 ^ 32) :
    new_target_dimensions sw sh cw ch (some w) none =
      some (w, sh * w * ch / (sw * cw)) := by
  have hpos : 0 < sw * cw := Nat.mul_pos hsw hcw
  simp only [new_target_dimensions, u32Mul_eq sw cw h3, u32Mul_eq sh w h1,
    u32Mul_eq (sh * w) ch h2]
  rw [if_neg (by omega)]

theorem c5_height_from_width_witness :
    new_target_dimensions 1920 1080 1 1 (some 80) none = some (80, 45) := by
  have h := c5_height_from_width 1920 1080 1 1 80
    (by decide) (by decide) (by decide) (by decide) (by decide)
  rw [h]

end BitburnerPlayer
